import Mathlib

/-!
Verification of the collate_moi_reports.py pipeline (FNL-MoCha/ocp_tools).

This file gives a shallow embedding of the program's data model and
operations, translated from src/collate_moi_reports.py, and proves or
refutes the frozen specification claims about it.

Modelling conventions:
- Python lists of strings become List String; machine exceptions
  (IndexError, KeyError) are modelled by Option, with none standing for
  an uncaught exception aborting the computation.
- Python dicts (insertion ordered, last-write-wins assignment) become
  association lists List (String × v) together with dictInsert and
  lookupD below.
- The external collaborators match_moi_report.pl (the report generator)
  and vcfExtractor.pl (the location lookup) are opaque per the spec;
  they are passed in as function parameters ext and loc.
- The natsort library call natsorted(keys, key=f) is modelled as a
  stable insertion sort by the natural-order comparator natCompare,
  which splits a string into alternating digit and non-digit runs and
  compares digit runs by numeric value, other runs by code point.
-/

/-- Python str.split with a single-character separator, on char lists.
Mirrors: an empty input gives one empty field, and every separator
starts a new field. -/
def splitChar (sep : Char) : List Char → List (List Char)
  | [] => [[]]
  | c :: rest =>
    match splitChar sep rest with
    | [] => [[]]
    | g :: gs => if c = sep then [] :: g :: gs else (c :: g) :: gs

/-- Python str.split(sep) for one-character separators, on strings. -/
def pySplit (sep : Char) (s : String) : List String :=
  (splitChar sep s.data).map String.mk

/-- Python os.path.basename: the part of the path after the last slash. -/
def pyBasename (s : String) : String :=
  String.mk (s.data.foldl (fun acc c => if c = '/' then [] else acc ++ [c]) [])

/-- Python str.rstrip(chars): remove every trailing character belonging
to the given character set (not a suffix removal). -/
def pyRstrip (s : String) (chars : List Char) : String :=
  String.mk (((s.data.reverse.dropWhile (fun c => chars.contains c))).reverse)

/-- Python str.lstrip applied with the character set containing only a
dash, as in x.lstrip of two dashes in print_title. -/
def stripDashes (s : String) : String :=
  String.mk (s.data.dropWhile (fun c => c = '-'))

/-- Insertion-ordered dict assignment d[k] = v: replace in place when the
key is present, append otherwise (CPython dict semantics). -/
def dictInsert {v : Type} (m : List (String × v)) (k : String) (x : v) :
    List (String × v) :=
  if m.any (fun p => p.1 == k) then
    m.map (fun p => if p.1 == k then (k, x) else p)
  else m ++ [(k, x)]

/-- Dict lookup d[k] returning none for a KeyError. -/
def lookupD {v : Type} (m : List (String × v)) (k : String) : Option v :=
  (m.find? (fun p => p.1 == k)).map (fun p => p.2)

/-- Truthiness of an optional integer argument, as Python tests it in
get_args and parse_cnv_params: None and 0 are falsy. -/
def truthy : Option Int → Bool
  | none => false
  | some n => n != 0

/-- The configuration-conflict test of get_args lines 117-122: an error
is raised exactly when one of the two CI bounds is truthy and the other
is not, in which case the program exits with status 1 before any
processing. -/
def ci_bounds_error (cu cl : Option Int) : Bool :=
  (truthy cu || truthy cl) && !(truthy cu && truthy cl)

/-- parse_cnv_params: build the standardized CNV parameter list from the
cu, cl and cn settings, keeping only truthy values, in the dict insertion
order cu, cl, cn. -/
def parse_cnv_params (cu cl cn : Option Int) : List String :=
  (if truthy cu then ["--cu", toString (cu.getD 0)] else []) ++
  (if truthy cl then ["--cl", toString (cl.getD 0)] else []) ++
  (if truthy cn then ["--cn", toString (cn.getD 0)] else [])

/-- The wanted-field index tables of populate_list. -/
def wanted_fields (var_type : String) : List Nat :=
  if var_type = "snv" then [0, 9, 1, 2, 3, 10, 11, 12, 8, 4, 5, 6, 7, 13]
  else if var_type = "cnv" then [0, 1, 2, 5]
  else if var_type = "fusions" then [0, 4, 2, 1, 3]
  else []

/-- populate_list: project the raw fields through the wanted-field table;
none models the IndexError raised when a field index is out of range. -/
def populate_list (var_type : String) (var_data : List String) :
    Option (List String) :=
  (wanted_fields var_type).mapM (fun i => var_data[i]?)

/-- The assignment loop of pad_list: write the data values at the given
template positions, consuming the data front to back exactly as the
Python code pops the reversed list; none models the IndexError from
popping an exhausted list. -/
def padGo : List Nat → List String → List String → Option (List String)
  | [], _, tmp => some tmp
  | i :: is, v :: vs, tmp => padGo is vs (tmp.set i v)
  | _ :: _, [], _ => none

/-- pad_list: place the projected values into a 15-wide row template of
placeholder hyphens, at the class-specific positions. -/
def pad_list (data_list : List String) (data_type : String) :
    Option (List String) :=
  let tmp := List.replicate 15 "-"
  if data_type = "cnv" then padGo [0, 1, 2, 9] data_list tmp
  else if data_type = "fusions" then padGo [0, 1, 8, 4, 10] data_list tmp
  else some tmp

/-- The per-sample bundle: one insertion-ordered bucket per variant
class, mirroring the defaultdict keys snv_data, cnv_data, fusion_data and
null of parse_data. A Python bucket key exists iff the list is nonempty. -/
structure Bundle where
  snv_data : List (String × List String)
  cnv_data : List (String × List String)
  fusion_data : List (String × List String)
  null_data : List (String × List String)
deriving DecidableEq, Repr

def emptyBundle : Bundle := ⟨[], [], [], []⟩

/-- The dispatch of the line loop of parse_data (lines 200-218), on the
already split fields. -/
def parseFields (dna rna : String) (loc : String → String) (b : Bundle)
    (fields : List String) : Option Bundle :=
  if fields.headD "" = "SNV" then do
    let f9 ← fields[9]?
    let f1 ← fields[1]?
    let row ← populate_list "snv" fields
    pure { b with
      snv_data :=
        dictInsert b.snv_data (f9 ++ ":" ++ f1) ((dna :: row) ++ [loc f1]) }
  else if fields.headD "" = "CNV" then do
    let f1 ← fields[1]?
    let f2 ← fields[2]?
    let cnv_row ← populate_list "cnv" fields
    let padded ← pad_list cnv_row "cnv"
    pure { b with
      cnv_data := dictInsert b.cnv_data (f1 ++ ":" ++ f2) (dna :: padded) }
  else if fields.headD "" = "Fusion" then do
    let f1 ← fields[1]?
    let f2 ← fields[2]?
    let fusion_row ← populate_list "fusions" fields
    let padded ← pad_list fusion_row "fusions"
    pure { b with
      fusion_data := dictInsert b.fusion_data (f1 ++ ":" ++ f2) (rna :: padded) }
  else pure b

/-- One iteration of the line loop of parse_data (lines 199-218): split
the line on commas and dispatch on the class tag. -/
def parseLine (dna rna : String) (loc : String → String) (b : Bundle)
    (line : String) : Option Bundle :=
  parseFields dna rna loc b (pySplit ',' line)

/-- parse_data: split the report text into lines, process each line, and
synthesize the null bucket row when no variant was collected. The loc
parameter is the opaque vcfExtractor location lookup used to enrich SNV
rows. none models an uncaught exception. -/
def parse_data (report_data dna rna : String) (loc : String → String) :
    Option Bundle := do
  let b ← (pySplit '\n' report_data).foldlM (parseLine dna rna loc) emptyBundle
  if b.snv_data.isEmpty && b.cnv_data.isEmpty && b.fusion_data.isEmpty then
    pure { b with
      null_data := [("no_result", dna :: List.replicate 11 "-")] }
  else
    pure b

/-! Natural-order comparator modelling the natsort library. -/

/-- Three-way comparison on Nat. -/
def cmpNat (m n : Nat) : Ordering :=
  if m < n then .lt else if n < m then .gt else .eq

/-- Three-way code-point comparison on characters. -/
def cmpChar (c d : Char) : Ordering := cmpNat c.toNat d.toNat

/-- Lexicographic three-way comparison of char lists. -/
def cmpCharList : List Char → List Char → Ordering
  | [], [] => .eq
  | [], _ :: _ => .lt
  | _ :: _, [] => .gt
  | c :: cs, d :: ds =>
    match cmpChar c d with
    | .eq => cmpCharList cs ds
    | o => o

/-- Numeric value of a digit run. -/
def digitsVal (cs : List Char) : Nat :=
  cs.foldl (fun a c => a * 10 + (c.toNat - 48)) 0

/-- Split a char list into maximal runs, flagged true for digit runs. -/
def natTokens : List Char → List (Bool × List Char)
  | [] => []
  | c :: rest =>
    match natTokens rest with
    | [] => [(c.isDigit, [c])]
    | (b, run) :: toks =>
      if c.isDigit = b then (b, c :: run) :: toks
      else (c.isDigit, [c]) :: (b, run) :: toks

/-- Compare two runs: digit runs by numeric value, text runs by code
point; a digit run sorts before a text run at the same position,
matching the empty leading text element natsort inserts before a
leading number. -/
def cmpRun : Bool × List Char → Bool × List Char → Ordering
  | (true, ds), (true, es) => cmpNat (digitsVal ds) (digitsVal es)
  | (false, ts), (false, us) => cmpCharList ts us
  | (true, _), (false, _) => .lt
  | (false, _), (true, _) => .gt

/-- Lexicographic comparison of run lists. -/
def cmpRuns : List (Bool × List Char) → List (Bool × List Char) → Ordering
  | [], [] => .eq
  | [], _ :: _ => .lt
  | _ :: _, [] => .gt
  | a :: as, b :: bs =>
    match cmpRun a b with
    | .eq => cmpRuns as bs
    | o => o

/-- The natural-order comparison of two strings (natsort semantics). -/
def natCompare (a b : String) : Ordering :=
  cmpRuns (natTokens a.data) (natTokens b.data)

/-- Non-strict natural order as a Bool. -/
def natLe (a b : String) : Bool :=
  match natCompare a b with
  | .gt => false
  | _ => true

/-- Natural comparison of the two-component SNV sort key tuples. -/
def pairCompare (x y : String × String) : Ordering :=
  match natCompare x.1 y.1 with
  | .eq => natCompare x.2 y.2
  | o => o

def pairLe (x y : String × String) : Bool :=
  match pairCompare x y with
  | .gt => false
  | _ => true

/-- The sort key of the SNV branch of print_data: components 1 and 2 of
the colon-split key; none models the IndexError when the key has fewer
than three colon-separated components. -/
def snvSortKey (k : String) : Option (String × String) := do
  let parts := pySplit ':' k
  let a ← parts[1]?
  let b ← parts[2]?
  pure (a, b)

/-- The sort key of the CNV and Fusion branch of print_data: component 1
of the colon-split key. -/
def posSortKey (k : String) : Option String := (pySplit ':' k)[1]?

instance relPairLe :
    DecidableRel (fun (a b : String × (String × String)) =>
      pairLe a.2 b.2 = true) :=
  fun _ _ => instDecidableEqBool _ _

instance relNatLe :
    DecidableRel (fun (a b : String × String) => natLe a.2 b.2 = true) :=
  fun _ _ => instDecidableEqBool _ _

/-- print_data: emit the rows of one bucket as comma-joined lines, in
natsorted key order. Sort keys are computed for every key first, as
CPython's sorted does; none models an uncaught IndexError or KeyError. -/
def print_data (var_type : String) (data : List (String × List String)) :
    Option (List String) :=
  if var_type = "null" then do
    let row ← lookupD data "no_result"
    pure [String.intercalate "," row]
  else if var_type = "snv_data" then do
    let keyed ← (data.map Prod.fst).mapM
      (fun k => (snvSortKey k).map (fun sk => (k, sk)))
    let sorted := List.insertionSort
      (fun a b => pairLe a.2 b.2 = true) keyed
    sorted.mapM (fun p => (lookupD data p.1).map
      (fun row => String.intercalate "," row))
  else do
    let keyed ← (data.map Prod.fst).mapM
      (fun k => (posSortKey k).map (fun sk => (k, sk)))
    let sorted := List.insertionSort
      (fun a b => natLe a.2 b.2 = true) keyed
    sorted.mapM (fun p => (lookupD data p.1).map
      (fun row => String.intercalate "," row))

/-- Substring containment test, as the Python in operator on strings. -/
def containsSub (hay needle : String) : Bool :=
  (List.range (hay.data.length + 1)).any
    (fun i => decide (((hay.data.drop i).take needle.data.length) = needle.data))

/-- Replace every occurrence of a nonempty needle, left to right, as
Python str.replace; fuel-driven recursion over the list length. -/
def replaceAux (needle repl : List Char) : Nat → List Char → List Char
  | 0, l => l
  | _ + 1, [] => []
  | fuel + 1, c :: rest =>
    if ((c :: rest).take needle.length) = needle then
      repl ++ replaceAux needle repl fuel ((c :: rest).drop needle.length)
    else
      c :: replaceAux needle repl fuel rest

def pyReplace (s needle repl : String) : String :=
  String.mk (replaceAux needle.data repl.data s.data.length s.data)

def dashes95 : String := String.mk (List.replicate 95 '-')

/-- print_title: the parameter banner written at line 345, the last
output the program produces before sys.exit(). -/
def print_title (cu cl cn : Option Int) (reads : Int) (pedmatch : Bool) :
    String :=
  let cnv_params := parse_cnv_params cu cl cn
  let sp := "=".intercalate (cnv_params.map stripDashes)
  let sp := if containsSub sp "cl" then pyReplace sp "=cl" "; cl" else sp
  let study := if pedmatch then "Pediatric MATCH" else "Adult MATCH"
  dashes95 ++ "\nCollated " ++ study ++
    " MOI Reports Using Params CNV: " ++ sp ++ ", Fusion Reads: reads=" ++
    toString reads ++ "\n" ++ dashes95 ++ "\n"

/-- Whether the basename ends in the three characters vcf, the anchored
tail of the naming-convention regex. -/
def vcfEnd (n : List Char) : Bool := decide (n.reverse.take 3 = ['f', 'c', 'v'])

/-- The leftmost position of a DNA_ occurrence that leaves room for the
rest of the regex (one group-2 run, one arbitrary character, then vcf at
the end), which is the occurrence the regex engine commits to. -/
def convFirst (n : List Char) : Option Nat :=
  (List.range n.length).find?
    (fun i => decide ((n.drop i).take 4 = ['D', 'N', 'A', '_']) &&
      decide (i + 8 ≤ n.length))

/-- Whether the basename matches the naming-convention regex of
get_names. -/
def convMatches (n : List Char) : Bool := vcfEnd n && (convFirst n).isSome

/-- get_names: extract the DNA and RNA sample names from the filename,
or fall back to the rstripped basename for both, warning unless quiet.
Returns (dna, rna, warned). -/
def get_names (path : String) (quiet : Bool) : String × String × Bool :=
  let s := pyBasename path
  let n := s.data
  match (if vcfEnd n then convFirst n else none) with
  | some i =>
      (String.mk (n.take (i + 3)),
       String.mk ((n.drop (i + 4)).take (n.length - 4 - (i + 4))),
       false)
  | none =>
      let r := pyRstrip s ['.', 'v', 'c', 'f']
      (r, r, !quiet)

/-- gen_moi_report: run the opaque external reporter on one file and
parse its output into a bundle; ext is the reporter's stdout for a given
file on success, loc the per-file location lookup. -/
def gen_moi_report (ext : String → String) (loc : String → String → String)
    (quiet : Bool) (vcf : String) : Option Bundle :=
  let names := get_names vcf quiet
  parse_data (ext vcf) names.1 names.2.1 (loc vcf)

/-- The moi_data dict built by processing files in the given order; in
the sequential branch the order is the input order, in the threaded
branch it is the completion order of the pool. A raised exception in any
task aborts the batch (none). -/
def build_moi (ext : String → String) (loc : String → String → String)
    (quiet : Bool) (order : List String) :
    Option (List (String × Bundle)) :=
  order.foldlM
    (fun m v => (gen_moi_report ext loc quiet v).map (dictInsert m v)) []

/-- proc_vcfs: sequential processing in input order when num_procs is
less than 2, otherwise pool processing whose results arrive in the
unspecified completion order. -/
def proc_vcfs (vcf_files completion : List String) (num_procs : Nat)
    (ext : String → String) (loc : String → String → String)
    (quiet : Bool) : Option (List (String × Bundle)) :=
  if num_procs < 2 then build_moi ext loc quiet vcf_files
  else build_moi ext loc quiet completion

/-- The header row of main, lines 348-350. -/
def headerFields : List String :=
  ["Sample", "Type", "Gene", "Position", "Ref", "Alt",
   "Transcript", "CDS", "AA", "VARID", "VAF/CN", "Coverage/Counts",
   "RefCov", "AltCov", "Function", "Location"]

def headerLine : String := String.intercalate "," headerFields

def sortStr (l : List String) : List String :=
  List.insertionSort (fun a b : String => a ≤ b) l

/-- The per-sample emission of main lines 356-360: each bucket is looked
up in the bundle (a missing bucket key raises KeyError, caught and
skipped; an empty list models a missing key), and printed. The KeyError
that print_data of the null bucket could itself raise is equally caught
by the same handler, hence getD. IndexErrors from print_data are not
caught and abort (none). -/
def sample_lines (b : Bundle) : Option (List String) := do
  let l1 ← if b.snv_data.isEmpty then pure [] else print_data "snv_data" b.snv_data
  let l2 ← if b.cnv_data.isEmpty then pure [] else print_data "cnv_data" b.cnv_data
  let l3 ← if b.fusion_data.isEmpty then pure [] else print_data "fusion_data" b.fusion_data
  let l4 := if b.null_data.isEmpty then [] else (print_data "null" b.null_data).getD []
  pure (l1 ++ l2 ++ l3 ++ l4)

/-- The collation loop of main lines 348-360 (the header row plus the
per-sample, per-class data rows), as the source text states it. In the
shipped program this code is unreachable: sys.exit() on line 346 runs
first. -/
def report_section (m : List (String × Bundle)) : Option (List String) := do
  let per ← (sortStr (m.map Prod.fst)).mapM
    (fun s => (lookupD m s).bind sample_lines)
  pure (headerLine :: per.flatten)

/-- The full report stream main would emit after the banner, if it did
not exit: unused by main_output below, stated for analysis of the
assembler. -/
def collated_report (vcf_files completion : List String) (num_procs : Nat)
    (ext : String → String) (loc : String → String → String)
    (quiet : Bool) : Option (List String) :=
  (proc_vcfs vcf_files completion num_procs ext loc quiet).bind report_section

/-- main: everything actually written to the selected output stream.
proc_vcfs runs, then print_title writes the banner, then sys.exit() on
line 346 terminates the process, so the banner is the entire output;
the header of lines 348-351 and the data loop never execute. none
models an exception escaping from processing. -/
def main_output (vcf_files completion : List String) (num_procs : Nat)
    (ext : String → String) (loc : String → String → String)
    (cu cl cn : Option Int) (reads : Int) (pedmatch : Bool)
    (quiet : Bool) : Option String :=
  (proc_vcfs vcf_files completion num_procs ext loc quiet).map
    (fun _ => print_title cu cl cn reads pedmatch)

/-- Shape predicate for the rows of a bundle, read off the source: SNV
rows are the DNA name, 14 projected fields and the location (width 16);
CNV rows are the DNA name, three projected fields at template positions
0-2, one at position 9, placeholders elsewhere; Fusion rows are the RNA
name with projected fields at template positions 0, 1, 4, 8 and 10; the
null row is the DNA name followed by 11 placeholders (width 12). -/
def bundleShapes (dna rna : String) (b : Bundle) : Prop :=
  (∀ pr ∈ b.snv_data, pr.2.length = 16) ∧
  (∀ pr ∈ b.cnv_data, ∃ t g c v, pr.2 =
    [dna, t, g, c, "-", "-", "-", "-", "-", "-", v, "-", "-", "-", "-", "-"]) ∧
  (∀ pr ∈ b.fusion_data, ∃ t d g c r, pr.2 =
    [rna, t, d, "-", "-", g, "-", "-", "-", c, "-", r, "-", "-", "-", "-"]) ∧
  (∀ pr ∈ b.null_data, pr.2 = dna :: List.replicate 11 "-")

/-- At least one variant bucket of the bundle is populated, which is
exactly when the Python defaultdict is truthy in parse_data line 221. -/
def bundleNonempty (b : Bundle) : Prop :=
  b.snv_data ≠ [] ∨ b.cnv_data ≠ [] ∨ b.fusion_data ≠ []

/-! ### Basic helper lemmas -/

theorem obind_eq_some {α β : Type} {x : Option α} {f : α → Option β} {b : β} :
    (x >>= f) = some b ↔ ∃ a, x = some a ∧ f a = some b :=
  Option.bind_eq_some

theorem obind_some {α β : Type} (a : α) (f : α → Option β) :
    ((some a : Option α) >>= f) = f a := rfl

theorem mk_data (s : String) : String.mk s.data = s := rfl

theorem splitChar_ne_nil (sep : Char) (l : List Char) :
    splitChar sep l ≠ [] := by
  cases l with
  | nil => simp [splitChar]
  | cons c rest =>
    simp only [splitChar]
    cases h : splitChar sep rest with
    | nil => simp
    | cons g gs =>
      by_cases hc : c = sep <;> simp [hc]

theorem splitChar_not_mem {sep : Char} {l : List Char} (h : sep ∉ l) :
    splitChar sep l = [l] := by
  induction l with
  | nil => rfl
  | cons c rest ih =>
    have hc : c ≠ sep := fun hcc => h (hcc ▸ List.mem_cons_self c rest)
    have hr : sep ∉ rest := fun hm => h (List.mem_cons_of_mem c hm)
    simp only [splitChar, ih hr]
    simp [hc]

theorem pySplit_not_mem {sep : Char} {s : String} (h : sep ∉ s.data) :
    pySplit sep s = [s] := by
  simp [pySplit, splitChar_not_mem h, mk_data]

theorem mapM_getElem?_none {l : List String} {is : List Nat}
    (h : ∃ i ∈ is, l[i]? = none) :
    is.mapM (fun i => l[i]?) = none := by
  induction is with
  | nil => simp at h
  | cons j js ih =>
    rw [List.mapM_cons]
    rcases h with ⟨i, hi, hnone⟩
    rcases List.mem_cons.mp hi with rfl | hmem
    · simp [hnone]
    · cases hj : l[j]? with
      | none => simp [hj]
      | some v =>
        simp only [hj, ih ⟨i, hmem, hnone⟩]
        rfl

/-! ### Claim C10: zero-valued confidence-interval bounds -/

/-- C10: a bound supplied as 0 is falsy, so supplying --cu 0 with a
nonzero --cl (or vice versa) triggers the paired-threshold
configuration error of get_args, and a zero-valued threshold never
appears in the parameter list parse_cnv_params builds; in both places a
zero value behaves exactly like an absent option. -/
theorem c10_zero_threshold (c : Int) (h : c ≠ 0) :
    ci_bounds_error (some 0) (some c) = true ∧
    ci_bounds_error (some c) (some 0) = true ∧
    (∀ cl cn, parse_cnv_params (some 0) cl cn = parse_cnv_params none cl cn) ∧
    (∀ cu cn, parse_cnv_params cu (some 0) cn = parse_cnv_params cu none cn) ∧
    (∀ cu cl, parse_cnv_params cu cl (some 0) = parse_cnv_params cu cl none) ∧
    (∀ x, ci_bounds_error (some 0) x = ci_bounds_error none x) ∧
    (∀ x, ci_bounds_error x (some 0) = ci_bounds_error x none) := by
  have ht : truthy (some c) = true := by
    simp [truthy, bne_iff_ne, h]
  have h0 : truthy (some 0) = false := rfl
  refine ⟨?_, ?_, ?_, ?_, ?_, ?_, ?_⟩
  · simp [ci_bounds_error, ht, h0]
  · simp [ci_bounds_error, ht, h0]
  · intro cl cn; rfl
  · intro cu cn; rfl
  · intro cu cl; rfl
  · intro x; rfl
  · intro x; rfl

theorem c10_zero_threshold_witness :
    (5 : Int) ≠ 0 ∧
    (ci_bounds_error (some 0) (some 5) = true ∧
     ci_bounds_error (some 5) (some 0) = true ∧
     (∀ cl cn, parse_cnv_params (some 0) cl cn = parse_cnv_params none cl cn) ∧
     (∀ cu cn, parse_cnv_params cu (some 0) cn = parse_cnv_params cu none cn) ∧
     (∀ cu cl, parse_cnv_params cu cl (some 0) = parse_cnv_params cu cl none) ∧
     (∀ x, ci_bounds_error (some 0) x = ci_bounds_error none x) ∧
     (∀ x, ci_bounds_error x (some 0) = ci_bounds_error x none)) :=
  ⟨by decide, c10_zero_threshold 5 (by decide)⟩

/-! ### Claim C8: naming-convention fallback -/

/-- C8 counterexample: for the non-matching filename acc.vcf the code
returns the identifier a, not the suffix-stripped basename acc, because
rstrip removes every trailing character in the set dot, v, c, f. -/
theorem c8_counterexample :
    get_names "acc.vcf" true = ("a", "a", false) ∧ ("a" : String) ≠ "acc" := by
  constructor
  · rfl
  · decide

/-- C8 amended: when the basename does not match the naming-convention
regex, get_names returns the basename with all trailing characters in
the set dot, v, c, f removed (Python str.rstrip semantics, not suffix
removal) as both the DNA and RNA identifier, and warns exactly when
quiet mode is off. -/
theorem c8_fallback_rstrip (path : String) (quiet : Bool)
    (h : convMatches (pyBasename path).data = false) :
    get_names path quiet =
      (pyRstrip (pyBasename path) ['.', 'v', 'c', 'f'],
       pyRstrip (pyBasename path) ['.', 'v', 'c', 'f'], !quiet) := by
  unfold convMatches at h
  unfold get_names
  cases hv : vcfEnd (pyBasename path).data with
  | false => simp [hv]
  | true =>
    rw [hv] at h
    simp only [Bool.true_and] at h
    have hc : convFirst (pyBasename path).data = none :=
      Option.not_isSome_iff_eq_none.mp (by simp [h])
    simp [hv, hc]

theorem c8_fallback_rstrip_witness :
    convMatches (pyBasename "acc.vcf").data = false ∧
    get_names "acc.vcf" false =
      (pyRstrip (pyBasename "acc.vcf") ['.', 'v', 'c', 'f'],
       pyRstrip (pyBasename "acc.vcf") ['.', 'v', 'c', 'f'], !false) :=
  ⟨by decide, c8_fallback_rstrip "acc.vcf" false (by decide)⟩

/-! ### Claim C3: the eleven-field SNV example line -/

/-- C3 counterexample: on the quoted input line the collector does not
produce a row at all; parse_data aborts with an IndexError (none),
because the line has 11 comma-separated fields while the SNV
wanted-field table reads index 13. -/
theorem c3_counterexample :
    parse_data
      "SNV,chr7,140453136,A,T,p.V600E,NM_004333,c.1799T>A,Missense,rs113488022,VAF=0.45"
      "patientA" "patientA" (fun _ => "") = none := rfl

/-- C3 amended: the quoted line splits into 11 fields, the SNV field
projection fails on it, and the whole per-sample parse raises instead
of storing any bucket entry. Had the line carried 14 or more fields,
the key built by the code would moreover be field 9 joined to field 1,
that is rs113488022:chr7, not rs113488022:140453136. -/
theorem c3_line_fatal :
    (pySplit ','
      "SNV,chr7,140453136,A,T,p.V600E,NM_004333,c.1799T>A,Missense,rs113488022,VAF=0.45").length = 11 ∧
    populate_list "snv"
      (pySplit ','
        "SNV,chr7,140453136,A,T,p.V600E,NM_004333,c.1799T>A,Missense,rs113488022,VAF=0.45") = none ∧
    parse_data
      "SNV,chr7,140453136,A,T,p.V600E,NM_004333,c.1799T>A,Missense,rs113488022,VAF=0.45"
      "patientA" "patientA" (fun _ => "") = none :=
  ⟨rfl, rfl, rfl⟩

/-! ### Claim C2: short lines with a recognized class tag -/

/-- C2 counterexample: a recognized SNV tag with too few fields is not
skipped; the collector aborts (IndexError, modelled none), and the
well-formed CNV line that follows is never collected. -/
theorem c2_counterexample :
    parse_data "SNV,chr1\nCNV,g,c,s,e,9" "d" "r" (fun _ => "") = none := rfl

/-- C2 amended: for every single-line input whose first comma field is a
recognized class tag but which has fewer fields than that class's
wanted-field table requires, parse_data raises an uncaught IndexError
(none) rather than skipping the line. -/
theorem c2_short_line_fatal (line dna rna : String) (loc : String → String)
    (hnl : '\n' ∉ line.data)
    (h : ((pySplit ',' line).headD "" = "SNV" ∧ (pySplit ',' line).length ≤ 13) ∨
         ((pySplit ',' line).headD "" = "CNV" ∧ (pySplit ',' line).length ≤ 5) ∨
         ((pySplit ',' line).headD "" = "Fusion" ∧ (pySplit ',' line).length ≤ 4)) :
    parse_data line dna rna loc = none := by
  have hsplit : pySplit '\n' line = [line] := pySplit_not_mem hnl
  have hstep : parseLine dna rna loc emptyBundle line = none := by
    unfold parseLine parseFields
    rcases h with ⟨hhead, hlen⟩ | ⟨hhead, hlen⟩ | ⟨hhead, hlen⟩ <;> rw [hhead]
    · have hpop : populate_list "snv" (pySplit ',' line) = none := by
        apply mapM_getElem?_none
        exact ⟨13, by simp [wanted_fields], List.getElem?_eq_none (by omega)⟩
      cases h9 : (pySplit ',' line)[9]? with
      | none => simp [h9]
      | some f9 =>
        cases h1 : (pySplit ',' line)[1]? with
        | none => simp [h9, h1]
        | some f1 => simp [h9, h1, hpop]
    · have hpop : populate_list "cnv" (pySplit ',' line) = none := by
        apply mapM_getElem?_none
        exact ⟨5, by simp [wanted_fields], List.getElem?_eq_none (by omega)⟩
      cases h1 : (pySplit ',' line)[1]? with
      | none => simp [h1]
      | some f1 =>
        cases h2 : (pySplit ',' line)[2]? with
        | none => simp [h1, h2]
        | some f2 => simp [h1, h2, hpop]
    · have hpop : populate_list "fusions" (pySplit ',' line) = none := by
        apply mapM_getElem?_none
        exact ⟨4, by simp [wanted_fields], List.getElem?_eq_none (by omega)⟩
      cases h1 : (pySplit ',' line)[1]? with
      | none => simp [h1]
      | some f1 =>
        cases h2 : (pySplit ',' line)[2]? with
        | none => simp [h1, h2]
        | some f2 => simp [h1, h2, hpop]
  simp [parse_data, hsplit, hstep]

theorem c2_short_line_fatal_witness :
    '\n' ∉ ("SNV,chr1" : String).data ∧
    parse_data "SNV,chr1" "d" "r" (fun _ => "") = none :=
  ⟨by decide,
   c2_short_line_fatal "SNV,chr1" "d" "r" (fun _ => "") (by decide)
     (Or.inl ⟨by decide, by decide⟩)⟩

/-! ### Claim C4 counterexample: the NoResult row width -/

/-- C4 counterexample: for an empty report the synthetic NoResult row is
the sample name followed by 11 placeholders, width 12, not the claimed
15-element shape. -/
theorem c4_counterexample :
    parse_data "" "patientB" "r" (fun _ => "") =
      some { snv_data := [], cnv_data := [], fusion_data := [],
             null_data := [("no_result", "patientB" :: List.replicate 11 "-")] } ∧
    ("patientB" :: List.replicate 11 "-").length = 12 ∧ (12 : Nat) ≠ 15 :=
  ⟨rfl, rfl, by decide⟩

/-! ### Claim C1: the emitted stream -/

set_option maxRecDepth 40000 in
/-- C1: the program never emits the header row or any data row; after
collecting the bundles it writes the parameter banner of print_title
and then sys.exit() on line 346 terminates it, so the entire output is
the banner and no output line equals the header line. -/
theorem c1_banner_only :
    main_output ["patientA_DNA_S1.vcf"] ["patientA_DNA_S1.vcf"] 1
        (fun _ => "") (fun _ _ => "") none none (some 7) 1000 false true
      = some (print_title none none (some 7) 1000 false) ∧
    ∀ line ∈ pySplit '\n' (print_title none none (some 7) 1000 false),
      line ≠ headerLine := by
  constructor
  · rfl
  · decide

/-! ### Dict and mapM lemmas -/

theorem dictInsert_mem {v : Type} {m : List (String × v)} {k : String}
    {x : v} {p : String × v} (h : p ∈ dictInsert m k x) :
    p = (k, x) ∨ p ∈ m := by
  unfold dictInsert at h
  by_cases hc : m.any (fun p => p.1 == k)
  · rw [if_pos hc] at h
    rcases List.mem_map.mp h with ⟨q, hq, hfq⟩
    by_cases hqk : q.1 == k
    · rw [if_pos hqk] at hfq
      exact Or.inl hfq.symm
    · rw [if_neg hqk] at hfq
      exact Or.inr (hfq ▸ hq)
  · rw [if_neg hc] at h
    rcases List.mem_append.mp h with hm | hm
    · exact Or.inr hm
    · exact Or.inl (List.mem_singleton.mp hm)

theorem dictInsert_ne_nil {v : Type} (m : List (String × v)) (k : String)
    (x : v) : dictInsert m k x ≠ [] := by
  unfold dictInsert
  by_cases hc : m.any (fun p => p.1 == k)
  · rw [if_pos hc]
    intro hnil
    rcases m with _ | ⟨q, t⟩
    · simp at hc
    · simp at hnil
  · rw [if_neg hc]
    simp

theorem mapM_some_length {α β : Type} {f : α → Option β} {l : List α}
    {out : List β} (h : l.mapM f = some out) : out.length = l.length := by
  induction l generalizing out with
  | nil =>
    rw [List.mapM_nil] at h
    cases h
    rfl
  | cons x xs ih =>
    rw [List.mapM_cons, obind_eq_some] at h
    rcases h with ⟨b, hb, h⟩
    rw [obind_eq_some] at h
    rcases h with ⟨bs, hbs, h⟩
    cases h
    simp [ih hbs]

theorem len4_shape {l : List String} (h : l.length = 4) :
    ∃ a b c d, l = [a, b, c, d] := by
  rcases l with _ | ⟨a, _ | ⟨b, _ | ⟨c, _ | ⟨d, _ | ⟨e, t⟩⟩⟩⟩⟩ <;> simp_all

theorem len5_shape {l : List String} (h : l.length = 5) :
    ∃ a b c d e, l = [a, b, c, d, e] := by
  rcases l with _ | ⟨a, _ | ⟨b, _ | ⟨c, _ | ⟨d, _ | ⟨e, _ | ⟨f, t⟩⟩⟩⟩⟩⟩ <;> simp_all

theorem pad_cnv (a b c d : String) :
    pad_list [a, b, c, d] "cnv" =
      some [a, b, c, "-", "-", "-", "-", "-", "-", d, "-", "-", "-", "-", "-"] :=
  rfl

theorem pad_fusions (a b c d e : String) :
    pad_list [a, b, c, d, e] "fusions" =
      some [a, b, "-", "-", d, "-", "-", "-", c, "-", e, "-", "-", "-", "-"] :=
  rfl

/-! ### Row-shape preservation through the parse fold -/

theorem parseFields_shapes {dna rna : String} {loc : String → String}
    {b b2 : Bundle} {fields : List String}
    (h : parseFields dna rna loc b fields = some b2)
    (hb : bundleShapes dna rna b) : bundleShapes dna rna b2 := by
  obtain ⟨hs, hcv, hf, hn⟩ := hb
  unfold parseFields at h
  split at h
  · rw [obind_eq_some] at h
    rcases h with ⟨f9, h9, h⟩
    rw [obind_eq_some] at h
    rcases h with ⟨f1, h1, h⟩
    rw [obind_eq_some] at h
    rcases h with ⟨row, hrow, h⟩
    have hlen : row.length = 14 := by
      have := mapM_some_length hrow
      simpa [wanted_fields] using this
    cases h
    refine ⟨?_, hcv, hf, hn⟩
    intro pr hpr
    rcases dictInsert_mem hpr with rfl | hm
    · simp [hlen]
    · exact hs pr hm
  · split at h
    · rw [obind_eq_some] at h
      rcases h with ⟨f1, h1, h⟩
      rw [obind_eq_some] at h
      rcases h with ⟨f2, h2, h⟩
      rw [obind_eq_some] at h
      rcases h with ⟨cnv_row, hrow, h⟩
      rw [obind_eq_some] at h
      rcases h with ⟨padded, hpad, h⟩
      have hlen : cnv_row.length = 4 := by
        have := mapM_some_length hrow
        simpa [wanted_fields] using this
      obtain ⟨a, b', c, d, rfl⟩ := len4_shape hlen
      rw [pad_cnv] at hpad
      cases hpad
      cases h
      refine ⟨hs, ?_, hf, hn⟩
      intro pr hpr
      rcases dictInsert_mem hpr with rfl | hm
      · exact ⟨a, b', c, d, rfl⟩
      · exact hcv pr hm
    · split at h
      · rw [obind_eq_some] at h
        rcases h with ⟨f1, h1, h⟩
        rw [obind_eq_some] at h
        rcases h with ⟨f2, h2, h⟩
        rw [obind_eq_some] at h
        rcases h with ⟨fusion_row, hrow, h⟩
        rw [obind_eq_some] at h
        rcases h with ⟨padded, hpad, h⟩
        have hlen : fusion_row.length = 5 := by
          have := mapM_some_length hrow
          simpa [wanted_fields] using this
        obtain ⟨a, b', c, d, e, rfl⟩ := len5_shape hlen
        rw [pad_fusions] at hpad
        cases hpad
        cases h
        refine ⟨hs, hcv, ?_, hn⟩
        intro pr hpr
        rcases dictInsert_mem hpr with rfl | hm
        · exact ⟨a, b', d, c, e, rfl⟩
        · exact hf pr hm
      · cases h
        exact ⟨hs, hcv, hf, hn⟩

theorem foldlM_parseLine_shapes {dna rna : String} {loc : String → String}
    {lines : List String} {b0 bf : Bundle}
    (h : lines.foldlM (parseLine dna rna loc) b0 = some bf)
    (hb : bundleShapes dna rna b0) : bundleShapes dna rna bf := by
  induction lines generalizing b0 with
  | nil =>
    rw [List.foldlM_nil] at h
    cases h
    exact hb
  | cons l ls ih =>
    rw [List.foldlM_cons, obind_eq_some] at h
    rcases h with ⟨b1, hstep, hrest⟩
    exact ih hrest (parseFields_shapes hstep hb)

/-! ### Claim C4 amended: actual row shapes -/

/-- C4 amended: in every successfully collected bundle, SNV, CNV and
Fusion rows all have the constant width 16, with the placeholder token
in every CNV and Fusion position not populated from source fields; the
synthetic NoResult row however is the DNA sample name followed by 11
placeholders, width 12, so the NoResult row does not share the common
width. -/
theorem c4_row_shapes (report dna rna : String) (loc : String → String)
    (b : Bundle) (h : parse_data report dna rna loc = some b) :
    bundleShapes dna rna b ∧
    (∀ pr ∈ b.snv_data, pr.2.length = 16) ∧
    (∀ pr ∈ b.cnv_data, pr.2.length = 16) ∧
    (∀ pr ∈ b.fusion_data, pr.2.length = 16) ∧
    (∀ pr ∈ b.null_data, pr.2.length = 12) := by
  unfold parse_data at h
  rw [obind_eq_some] at h
  rcases h with ⟨bmid, hfold, hfin⟩
  have hmid : bundleShapes dna rna bmid :=
    foldlM_parseLine_shapes hfold (by simp [bundleShapes, emptyBundle])
  have hshapes : bundleShapes dna rna b := by
    split at hfin <;> cases hfin
    · exact ⟨hmid.1, hmid.2.1, hmid.2.2.1, by intro pr hpr; simp_all⟩
    · exact hmid
  obtain ⟨hs, hcv, hf, hn⟩ := hshapes
  refine ⟨⟨hs, hcv, hf, hn⟩, hs, ?_, ?_, ?_⟩
  · intro pr hpr
    obtain ⟨t, g, c, v, hv⟩ := hcv pr hpr
    simp [hv]
  · intro pr hpr
    obtain ⟨t, d, g, c, r, hv⟩ := hf pr hpr
    simp [hv]
  · intro pr hpr
    simp [hn pr hpr]

set_option maxRecDepth 40000 in
theorem c4_row_shapes_witness :
    parse_data "CNV,MYC,chr8,st,en,7" "d" "r" (fun _ => "LOC") =
      some { snv_data := [],
             cnv_data := [("MYC:chr8",
               ["d", "CNV", "MYC", "chr8", "-", "-", "-", "-", "-", "-", "7",
                "-", "-", "-", "-", "-"])],
             fusion_data := [], null_data := [] } ∧
    (bundleShapes "d" "r"
      { snv_data := [],
        cnv_data := [("MYC:chr8",
          ["d", "CNV", "MYC", "chr8", "-", "-", "-", "-", "-", "-", "7",
           "-", "-", "-", "-", "-"])],
        fusion_data := [], null_data := [] } ∧
     (∀ pr ∈ ([] : List (String × List String)), pr.2.length = 16) ∧
     (∀ pr ∈ [(("MYC:chr8" : String),
         ["d", "CNV", "MYC", "chr8", "-", "-", "-", "-", "-", "-", "7",
          "-", "-", "-", "-", "-"])], pr.2.length = 16) ∧
     (∀ pr ∈ ([] : List (String × List String)), pr.2.length = 16) ∧
     (∀ pr ∈ ([] : List (String × List String)), pr.2.length = 12)) :=
  ⟨rfl, c4_row_shapes "CNV,MYC,chr8,st,en,7" "d" "r" (fun _ => "LOC") _ rfl⟩

/-! ### Claim C5: the synthetic NoResult row -/

theorem parseLine_unrecognized {dna rna : String} {loc : String → String}
    {b : Bundle} {line : String}
    (h : (pySplit ',' line).headD "" ∉ (["SNV", "CNV", "Fusion"] : List String)) :
    parseLine dna rna loc b line = some b := by
  have h1 : (pySplit ',' line).headD "" ≠ "SNV" := fun hx => h (by rw [hx]; decide)
  have h2 : (pySplit ',' line).headD "" ≠ "CNV" := fun hx => h (by rw [hx]; decide)
  have h3 : (pySplit ',' line).headD "" ≠ "Fusion" := fun hx => h (by rw [hx]; decide)
  unfold parseLine parseFields
  rw [if_neg h1, if_neg h2, if_neg h3]
  rfl

theorem foldlM_unrecognized {dna rna : String} {loc : String → String}
    {lines : List String} (b0 : Bundle)
    (h : ∀ line ∈ lines,
      (pySplit ',' line).headD "" ∉ (["SNV", "CNV", "Fusion"] : List String)) :
    lines.foldlM (parseLine dna rna loc) b0 = some b0 := by
  induction lines generalizing b0 with
  | nil => rfl
  | cons l ls ih =>
    rw [List.foldlM_cons,
      parseLine_unrecognized (h l (List.mem_cons_self l ls))]
    exact ih b0 (fun x hx => h x (List.mem_cons_of_mem l hx))

theorem parseFields_null {dna rna : String} {loc : String → String}
    {b b2 : Bundle} {fields : List String}
    (h : parseFields dna rna loc b fields = some b2) :
    b2.null_data = b.null_data := by
  unfold parseFields at h
  split at h
  · rw [obind_eq_some] at h
    rcases h with ⟨f9, h9, h⟩
    rw [obind_eq_some] at h
    rcases h with ⟨f1, h1, h⟩
    rw [obind_eq_some] at h
    rcases h with ⟨row, hrow, h⟩
    cases h
    rfl
  · split at h
    · rw [obind_eq_some] at h
      rcases h with ⟨f1, h1, h⟩
      rw [obind_eq_some] at h
      rcases h with ⟨f2, h2, h⟩
      rw [obind_eq_some] at h
      rcases h with ⟨cnv_row, hrow, h⟩
      rw [obind_eq_some] at h
      rcases h with ⟨padded, hpad, h⟩
      cases h
      rfl
    · split at h
      · rw [obind_eq_some] at h
        rcases h with ⟨f1, h1, h⟩
        rw [obind_eq_some] at h
        rcases h with ⟨f2, h2, h⟩
        rw [obind_eq_some] at h
        rcases h with ⟨fusion_row, hrow, h⟩
        rw [obind_eq_some] at h
        rcases h with ⟨padded, hpad, h⟩
        cases h
        rfl
      · cases h
        rfl

theorem foldlM_null {dna rna : String} {loc : String → String}
    {lines : List String} {b0 bf : Bundle}
    (h : lines.foldlM (parseLine dna rna loc) b0 = some bf) :
    bf.null_data = b0.null_data := by
  induction lines generalizing b0 with
  | nil =>
    rw [List.foldlM_nil] at h
    cases h
    rfl
  | cons l ls ih =>
    rw [List.foldlM_cons, obind_eq_some] at h
    rcases h with ⟨b1, hstep, hrest⟩
    rw [ih hrest]
    exact parseFields_null hstep

theorem parseFields_nonempty {dna rna : String} {loc : String → String}
    {b b2 : Bundle} {fields : List String}
    (h : parseFields dna rna loc b fields = some b2)
    (hx : bundleNonempty b ∨
      fields.headD "" ∈ (["SNV", "CNV", "Fusion"] : List String)) :
    bundleNonempty b2 := by
  unfold parseFields at h
  split at h
  · rw [obind_eq_some] at h
    rcases h with ⟨f9, h9, h⟩
    rw [obind_eq_some] at h
    rcases h with ⟨f1, h1, h⟩
    rw [obind_eq_some] at h
    rcases h with ⟨row, hrow, h⟩
    cases h
    exact Or.inl (dictInsert_ne_nil _ _ _)
  · split at h
    · rw [obind_eq_some] at h
      rcases h with ⟨f1, h1, h⟩
      rw [obind_eq_some] at h
      rcases h with ⟨f2, h2, h⟩
      rw [obind_eq_some] at h
      rcases h with ⟨cnv_row, hrow, h⟩
      rw [obind_eq_some] at h
      rcases h with ⟨padded, hpad, h⟩
      cases h
      exact Or.inr (Or.inl (dictInsert_ne_nil _ _ _))
    · split at h
      · rw [obind_eq_some] at h
        rcases h with ⟨f1, h1, h⟩
        rw [obind_eq_some] at h
        rcases h with ⟨f2, h2, h⟩
        rw [obind_eq_some] at h
        rcases h with ⟨fusion_row, hrow, h⟩
        rw [obind_eq_some] at h
        rcases h with ⟨padded, hpad, h⟩
        cases h
        exact Or.inr (Or.inr (dictInsert_ne_nil _ _ _))
      · cases h
        rcases hx with hb | hmem
        · exact hb
        · rename_i hn1 hn2 hn3
          simp only [List.mem_cons, List.not_mem_nil, or_false] at hmem
          rcases hmem with hc | hc | hc
          · exact absurd hc hn1
          · exact absurd hc hn2
          · exact absurd hc hn3

theorem foldlM_nonempty {dna rna : String} {loc : String → String}
    {lines : List String} {b0 bf : Bundle}
    (h : lines.foldlM (parseLine dna rna loc) b0 = some bf)
    (hx : bundleNonempty b0 ∨ ∃ line ∈ lines,
      (pySplit ',' line).headD "" ∈ (["SNV", "CNV", "Fusion"] : List String)) :
    bundleNonempty bf := by
  induction lines generalizing b0 with
  | nil =>
    rw [List.foldlM_nil] at h
    cases h
    rcases hx with hb | ⟨l, hl, _⟩
    · exact hb
    · cases hl
  | cons l ls ih =>
    rw [List.foldlM_cons, obind_eq_some] at h
    rcases h with ⟨b1, hstep, hrest⟩
    rcases hx with hb | ⟨x, hxl, hrec⟩
    · exact ih hrest (Or.inl (parseFields_nonempty hstep (Or.inl hb)))
    · rcases List.mem_cons.mp hxl with rfl | hxls
      · exact ih hrest (Or.inl (parseFields_nonempty hstep (Or.inr hrec)))
      · exact ih hrest (Or.inr ⟨x, hxls, hrec⟩)

/-- C5: a sample whose report text contains no line with a recognized
class tag (including the empty report) yields exactly the bundle whose
only row is the synthetic no_result row, led by the DNA identifier; and
whenever the parse succeeds and at least one line carried a recognized
tag, the null bucket is empty. -/
theorem c5_noresult (report dna rna : String) (loc : String → String) :
    ((∀ line ∈ pySplit '\n' report,
        (pySplit ',' line).headD "" ∉ (["SNV", "CNV", "Fusion"] : List String)) →
      parse_data report dna rna loc =
        some { snv_data := [], cnv_data := [], fusion_data := [],
               null_data := [("no_result", dna :: List.replicate 11 "-")] }) ∧
    (∀ b, parse_data report dna rna loc = some b →
      (∃ line ∈ pySplit '\n' report,
        (pySplit ',' line).headD "" ∈ (["SNV", "CNV", "Fusion"] : List String)) →
      b.null_data = []) := by
  constructor
  · intro hall
    unfold parse_data
    rw [foldlM_unrecognized emptyBundle hall]
    rfl
  · intro b hb hex
    unfold parse_data at hb
    rw [obind_eq_some] at hb
    rcases hb with ⟨bmid, hfold, hfin⟩
    have hne : bundleNonempty bmid := foldlM_nonempty hfold (Or.inr hex)
    have hcond : (bmid.snv_data.isEmpty && bmid.cnv_data.isEmpty &&
        bmid.fusion_data.isEmpty) = false := by
      rcases hne with hne | hne | hne <;> simp [List.isEmpty_iff, hne]
    rw [hcond] at hfin
    simp only [Bool.false_eq_true, if_false] at hfin
    cases hfin
    rw [foldlM_null hfold]
    rfl

set_option maxRecDepth 40000 in
theorem c5_noresult_witness :
    (parse_data "hello line\nanother,line" "patientB" "r" (fun _ => "") =
      some { snv_data := [], cnv_data := [], fusion_data := [],
             null_data := [("no_result", "patientB" :: List.replicate 11 "-")] }) ∧
    ((parse_data "CNV,MYC,chr8,st,en,7" "d" "r" (fun _ => "")).map
        Bundle.null_data = some []) := by
  constructor
  · exact (c5_noresult "hello line\nanother,line" "patientB" "r" (fun _ => "")).1
      (by decide)
  · have h := (c5_noresult "CNV,MYC,chr8,st,en,7" "d" "r" (fun _ => "")).2
      { snv_data := [],
        cnv_data := [("MYC:chr8",
          ["d", "CNV", "MYC", "chr8", "-", "-", "-", "-", "-", "-", "7",
           "-", "-", "-", "-", "-"])],
        fusion_data := [], null_data := [] } rfl (by decide)
    have hp : parse_data "CNV,MYC,chr8,st,en,7" "d" "r" (fun _ => "") =
        some { snv_data := [],
               cnv_data := [("MYC:chr8",
                 ["d", "CNV", "MYC", "chr8", "-", "-", "-", "-", "-", "-", "7",
                  "-", "-", "-", "-", "-"])],
               fusion_data := [], null_data := [] } := rfl
    rw [hp, Option.map_some', h]

/-! ### Natural-order comparator lemmas -/

theorem cmpNat_lt_iff {m n : Nat} : cmpNat m n = .lt ↔ m < n := by
  unfold cmpNat
  split_ifs with h1 h2 <;> simp_all

theorem cmpNat_gt_iff {m n : Nat} : cmpNat m n = .gt ↔ n < m := by
  unfold cmpNat
  split_ifs with h1 h2 <;> simp_all <;> omega

theorem cmpNat_eq_iff {m n : Nat} : cmpNat m n = .eq ↔ m = n := by
  unfold cmpNat
  split_ifs with h1 h2 <;> simp_all <;> omega

theorem cmpNat_swap (m n : Nat) : cmpNat m n = (cmpNat n m).swap := by
  unfold cmpNat
  split_ifs <;> first | rfl | omega

theorem cmpCharList_swap (a b : List Char) :
    cmpCharList a b = (cmpCharList b a).swap := by
  induction a generalizing b with
  | nil => cases b <;> rfl
  | cons c cs ih =>
    cases b with
    | nil => rfl
    | cons d ds =>
      simp only [cmpCharList, cmpChar]
      cases h : cmpNat c.toNat d.toNat with
      | lt =>
        have h2 : cmpNat d.toNat c.toNat = .gt := by rw [cmpNat_swap, h]; rfl
        rw [h2]
        rfl
      | eq =>
        have h2 : cmpNat d.toNat c.toNat = .eq := by rw [cmpNat_swap, h]; rfl
        rw [h2]
        exact ih ds
      | gt =>
        have h2 : cmpNat d.toNat c.toNat = .lt := by rw [cmpNat_swap, h]; rfl
        rw [h2]
        rfl

theorem cmpCharList_congr {a b : List Char} (h : cmpCharList a b = .eq) :
    ∀ c, cmpCharList a c = cmpCharList b c := by
  induction a generalizing b with
  | nil =>
    cases b with
    | nil => intro c; rfl
    | cons d ds => simp [cmpCharList] at h
  | cons x xs ih =>
    cases b with
    | nil => simp [cmpCharList] at h
    | cons y ys =>
      simp only [cmpCharList, cmpChar] at h
      cases hxy : cmpNat x.toNat y.toNat with
      | lt => rw [hxy] at h; cases h
      | gt => rw [hxy] at h; cases h
      | eq =>
        rw [hxy] at h
        have hxyv : x.toNat = y.toNat := cmpNat_eq_iff.mp hxy
        intro c
        cases c with
        | nil => rfl
        | cons z zs =>
          simp only [cmpCharList, cmpChar, hxyv]
          cases hz : cmpNat y.toNat z.toNat with
          | lt => rfl
          | gt => rfl
          | eq => exact ih h zs

theorem cmpCharList_lt_trans {a b c : List Char} (h1 : cmpCharList a b = .lt)
    (h2 : cmpCharList b c = .lt) : cmpCharList a c = .lt := by
  induction a generalizing b c with
  | nil =>
    cases b with
    | nil => cases h1
    | cons y ys =>
      cases c with
      | nil => cases h2
      | cons z zs => rfl
  | cons x xs ih =>
    cases b with
    | nil => cases h1
    | cons y ys =>
      cases c with
      | nil => cases h2
      | cons z zs =>
        simp only [cmpCharList, cmpChar] at h1 h2 ⊢
        cases hxy : cmpNat x.toNat y.toNat with
        | gt => rw [hxy] at h1; cases h1
        | lt =>
          cases hyz : cmpNat y.toNat z.toNat with
          | gt => rw [hyz] at h2; cases h2
          | lt =>
            have : cmpNat x.toNat z.toNat = .lt := by
              rw [cmpNat_lt_iff]
              exact lt_trans (cmpNat_lt_iff.mp hxy) (cmpNat_lt_iff.mp hyz)
            rw [this]
          | eq =>
            have hyzv : y.toNat = z.toNat := cmpNat_eq_iff.mp hyz
            rw [← hyzv, hxy]
        | eq =>
          rw [hxy] at h1
          have hxyv : x.toNat = y.toNat := cmpNat_eq_iff.mp hxy
          cases hyz : cmpNat y.toNat z.toNat with
          | gt => rw [hyz] at h2; cases h2
          | lt => rw [hxyv, hyz]
          | eq =>
            rw [hyz] at h2
            rw [hxyv, hyz]
            exact ih h1 h2

theorem cmpRun_swap (x y : Bool × List Char) : cmpRun x y = (cmpRun y x).swap := by
  rcases x with ⟨bx, dx⟩
  rcases y with ⟨by2, dy⟩
  cases bx <;> cases by2
  · exact cmpCharList_swap dx dy
  · rfl
  · rfl
  · exact cmpNat_swap (digitsVal dx) (digitsVal dy)

theorem cmpRun_congr {x y : Bool × List Char} (h : cmpRun x y = .eq) :
    ∀ z, cmpRun x z = cmpRun y z := by
  rcases x with ⟨bx, dx⟩
  rcases y with ⟨by2, dy⟩
  cases bx <;> cases by2 <;> intro z <;> rcases z with ⟨bz, dz⟩
  · cases bz
    · exact cmpCharList_congr h dz
    · rfl
  · cases h
  · cases h
  · cases bz
    · rfl
    · simp only [cmpRun] at h ⊢
      rw [cmpNat_eq_iff.mp h]

theorem cmpRun_lt_trans {x y z : Bool × List Char} (h1 : cmpRun x y = .lt)
    (h2 : cmpRun y z = .lt) : cmpRun x z = .lt := by
  rcases x with ⟨bx, dx⟩
  rcases y with ⟨by2, dy⟩
  rcases z with ⟨bz, dz⟩
  cases bx <;> cases by2 <;> cases bz
  · exact cmpCharList_lt_trans h1 h2
  · exact Ordering.noConfusion h2
  · exact Ordering.noConfusion h1
  · exact Ordering.noConfusion h1
  · rfl
  · exact Ordering.noConfusion h2
  · rfl
  · exact cmpNat_lt_iff.mpr
      (lt_trans (cmpNat_lt_iff.mp h1) (cmpNat_lt_iff.mp h2))

theorem cmpRuns_swap (a b : List (Bool × List Char)) :
    cmpRuns a b = (cmpRuns b a).swap := by
  induction a generalizing b with
  | nil => cases b <;> rfl
  | cons x xs ih =>
    cases b with
    | nil => rfl
    | cons y ys =>
      simp only [cmpRuns]
      cases h : cmpRun x y with
      | lt =>
        have h2 : cmpRun y x = .gt := by rw [cmpRun_swap, h]; rfl
        rw [h2]
        rfl
      | eq =>
        have h2 : cmpRun y x = .eq := by rw [cmpRun_swap, h]; rfl
        rw [h2]
        exact ih ys
      | gt =>
        have h2 : cmpRun y x = .lt := by rw [cmpRun_swap, h]; rfl
        rw [h2]
        rfl

theorem cmpRuns_congr {a b : List (Bool × List Char)} (h : cmpRuns a b = .eq) :
    ∀ c, cmpRuns a c = cmpRuns b c := by
  induction a generalizing b with
  | nil =>
    cases b with
    | nil => intro c; rfl
    | cons y ys => cases h
  | cons x xs ih =>
    cases b with
    | nil => cases h
    | cons y ys =>
      simp only [cmpRuns] at h
      cases hxy : cmpRun x y with
      | lt => rw [hxy] at h; cases h
      | gt => rw [hxy] at h; cases h
      | eq =>
        rw [hxy] at h
        intro c
        cases c with
        | nil => rfl
        | cons z zs =>
          simp only [cmpRuns]
          rw [cmpRun_congr hxy z]
          cases hz : cmpRun y z with
          | lt => rfl
          | gt => rfl
          | eq => exact ih h zs

theorem cmpRuns_lt_trans {a b c : List (Bool × List Char)}
    (h1 : cmpRuns a b = .lt) (h2 : cmpRuns b c = .lt) : cmpRuns a c = .lt := by
  induction a generalizing b c with
  | nil =>
    cases b with
    | nil => cases h1
    | cons y ys =>
      cases c with
      | nil => cases h2
      | cons z zs => rfl
  | cons x xs ih =>
    cases b with
    | nil => cases h1
    | cons y ys =>
      cases c with
      | nil => cases h2
      | cons z zs =>
        simp only [cmpRuns] at h1 h2 ⊢
        cases hxy : cmpRun x y with
        | gt => rw [hxy] at h1; cases h1
        | lt =>
          cases hyz : cmpRun y z with
          | gt => rw [hyz] at h2; cases h2
          | lt => rw [cmpRun_lt_trans hxy hyz]
          | eq =>
            have hzy : cmpRun z y = .eq := by rw [cmpRun_swap, hyz]; rfl
            have h3 : cmpRun x z = .lt := by
              rw [cmpRun_swap, cmpRun_congr hzy x, ← cmpRun_swap, hxy]
            rw [h3]
        | eq =>
          rw [hxy] at h1
          cases hyz : cmpRun y z with
          | gt => rw [hyz] at h2; cases h2
          | lt =>
            rw [cmpRun_congr hxy z, hyz]
          | eq =>
            rw [hyz] at h2
            rw [cmpRun_congr hxy z, hyz]
            exact ih h1 h2

theorem natCompare_swap (a b : String) : natCompare a b = (natCompare b a).swap :=
  cmpRuns_swap _ _

theorem natLe_total {a b : String} (h : natLe a b = false) : natLe b a = true := by
  unfold natLe at h ⊢
  cases hab : natCompare a b with
  | lt => rw [hab] at h; cases h
  | eq => rw [hab] at h; cases h
  | gt =>
    have : natCompare b a = .lt := by rw [natCompare_swap, hab]; rfl
    rw [this]

theorem natLe_trans {a b c : String} (h1 : natLe a b = true)
    (h2 : natLe b c = true) : natLe a c = true := by
  unfold natLe at h1 h2 ⊢
  cases hab : natCompare a b with
  | gt => rw [hab] at h1; cases h1
  | lt =>
    cases hbc : natCompare b c with
    | gt => rw [hbc] at h2; cases h2
    | lt =>
      have h3 : natCompare a c = .lt := cmpRuns_lt_trans hab hbc
      rw [h3]
    | eq =>
      have hcb : natCompare c b = .eq := by rw [natCompare_swap, hbc]; rfl
      have h3 : natCompare a c = natCompare a b := by
        unfold natCompare
        rw [cmpRuns_swap, cmpRuns_congr hcb (natTokens a.data), ← cmpRuns_swap]
      rw [h3, hab]
  | eq =>
    have h3 : natCompare a c = natCompare b c :=
      cmpRuns_congr hab (natTokens c.data)
    rw [h3]
    exact h2

theorem natTokens_digits {cs : List Char} (hne : cs ≠ [])
    (hd : ∀ c ∈ cs, c.isDigit) : natTokens cs = [(true, cs)] := by
  induction cs with
  | nil => cases hne rfl
  | cons c rest ih =>
    have hc : c.isDigit = true := hd c (List.mem_cons_self c rest)
    cases rest with
    | nil => simp [natTokens, hc]
    | cons d ds =>
      have hrest : natTokens (d :: ds) = [(true, d :: ds)] :=
        ih (by simp) (fun x hx => hd x (List.mem_cons_of_mem c hx))
      have hstep : natTokens (c :: d :: ds) =
          match natTokens (d :: ds) with
          | [] => [(c.isDigit, [c])]
          | (b, run) :: toks =>
            if c.isDigit = b then (b, c :: run) :: toks
            else (c.isDigit, [c]) :: (b, run) :: toks := rfl
      rw [hstep, hrest]
      simp [hc]

theorem natCompare_digit_lt {n1 n2 : String}
    (h1 : n1.data ≠ [] ∧ ∀ c ∈ n1.data, c.isDigit)
    (h2 : n2.data ≠ [] ∧ ∀ c ∈ n2.data, c.isDigit)
    (hlt : digitsVal n1.data < digitsVal n2.data) :
    natCompare n1 n2 = .lt ∧ natLe n2 n1 = false := by
  have ht1 := natTokens_digits h1.1 h1.2
  have ht2 := natTokens_digits h2.1 h2.2
  have hcmp : natCompare n1 n2 = .lt := by
    unfold natCompare
    rw [ht1, ht2]
    simp only [cmpRuns, cmpRun]
    rw [cmpNat_lt_iff.mpr hlt]
  refine ⟨hcmp, ?_⟩
  have hgt : natCompare n2 n1 = .gt := by
    rw [natCompare_swap, hcmp]
    rfl
  unfold natLe
  rw [hgt]

theorem splitChar_append {sep : Char} {a : List Char} (b : List Char)
    (h : sep ∉ a) : splitChar sep (a ++ sep :: b) = a :: splitChar sep b := by
  induction a with
  | nil =>
    obtain ⟨g, gs, hgs⟩ : ∃ g gs, splitChar sep b = g :: gs := by
      cases hb : splitChar sep b with
      | nil => exact absurd hb (splitChar_ne_nil sep b)
      | cons g gs => exact ⟨g, gs, rfl⟩
    simp [splitChar, hgs]
  | cons c a2 ih =>
    have hc : c ≠ sep := fun hcc => h (hcc ▸ List.mem_cons_self c a2)
    have ha2 : sep ∉ a2 := fun hm => h (List.mem_cons_of_mem c hm)
    have hrec := ih ha2
    simp only [List.cons_append, splitChar, List.append_eq]
    rw [hrec]
    simp [hc]

theorem pySplit_key {p n : String} (hp : ':' ∉ p.data) (hn : ':' ∉ n.data) :
    pySplit ':' (p ++ ":" ++ n) = [p, n] := by
  have hdata : (p ++ ":" ++ n).data = p.data ++ ':' :: n.data := by
    rw [String.data_append, String.data_append]
    simp [show (":" : String).data = [':'] from rfl]
  unfold pySplit
  rw [hdata, splitChar_append _ hp, splitChar_not_mem hn]
  simp [mk_data]

theorem posSortKey_key {p n : String} (hp : ':' ∉ p.data) (hn : ':' ∉ n.data) :
    posSortKey (p ++ ":" ++ n) = some n := by
  unfold posSortKey
  rw [pySplit_key hp hn]
  rfl

theorem snvSortKey_two_components {p n : String} (hp : ':' ∉ p.data)
    (hn : ':' ∉ n.data) : snvSortKey (p ++ ":" ++ n) = none := by
  unfold snvSortKey
  rw [pySplit_key hp hn]
  rfl

theorem mapM_option_spec {α β : Type} {g : α → Option β} {l : List α}
    (h : ∀ x ∈ l, (g x).isSome) :
    ∃ out, l.mapM g = some out ∧ out.length = l.length ∧
      ∀ i : Nat, out[i]? = (l[i]?).bind g := by
  induction l with
  | nil =>
    refine ⟨[], rfl, rfl, fun i => ?_⟩
    cases i <;> rfl
  | cons x xs ih =>
    have hx : (g x).isSome := h x (List.mem_cons_self x xs)
    obtain ⟨v, hv⟩ := Option.isSome_iff_exists.mp hx
    obtain ⟨out, hout, hlen, hget⟩ :=
      ih (fun y hy => h y (List.mem_cons_of_mem x hy))
    refine ⟨v :: out, ?_, by simp [hlen], fun i => ?_⟩
    · rw [List.mapM_cons, hv, hout]
      rfl
    · cases i with
      | zero => simp [hv]
      | succ m => simp [hget m]

theorem lookupD_isSome {v : Type} {m : List (String × v)} {k : String}
    (h : k ∈ m.map Prod.fst) : (lookupD m k).isSome := by
  unfold lookupD
  rcases List.mem_map.mp h with ⟨p, hp, rfl⟩
  have hf : (m.find? (fun q => q.1 == p.1)).isSome :=
    List.find?_isSome.mpr ⟨p, hp, by simp⟩
  obtain ⟨p2, hp2⟩ := Option.isSome_iff_exists.mp hf
  rw [hp2]
  rfl

theorem lookupD_eq {v : Type} {m : List (String × v)} {k : String} {r : v}
    (hm : (k, r) ∈ m) (hnd : (m.map Prod.fst).Nodup) : lookupD m k = some r := by
  induction m with
  | nil => cases hm
  | cons q t ih =>
    rw [List.map_cons, List.nodup_cons] at hnd
    rcases List.mem_cons.mp hm with rfl | hmem
    · simp [lookupD, List.find?]
    · have hq : (q.1 == k) = false := by
        rw [beq_eq_false_iff_ne]
        intro he
        have hkt : k ∈ t.map Prod.fst := List.mem_map.mpr ⟨(k, r), hmem, rfl⟩
        exact hnd.1 (he ▸ hkt)
      simp only [lookupD, List.find?, hq]
      exact ih hmem hnd.2

/-! ### Claim C7: the SNV sort key crashes on two-component keys -/

/-- C7: for every nonempty SNV bucket whose keys were built by the keyer
contract (secondary id, colon, position, both colon-free), print_data
raises an uncaught IndexError: the sort key lambda reads component 2 of
the colon-split key, which does not exist for any such key, so the
ordering is never well-defined and no rows are emitted. -/
theorem c7_snv_sort_crash (data : List (String × List String))
    (hne : data ≠ [])
    (hform : ∀ k ∈ data.map Prod.fst, ∃ a b : String,
      k = a ++ ":" ++ b ∧ ':' ∉ a.data ∧ ':' ∉ b.data) :
    print_data "snv_data" data = none := by
  obtain ⟨p0, rest, rfl⟩ : ∃ p0 rest, data = p0 :: rest := by
    cases data with
    | nil => cases hne rfl
    | cons p0 rest => exact ⟨p0, rest, rfl⟩
  obtain ⟨a, b, hk, ha, hb⟩ := hform p0.1 (by simp)
  have hsk : snvSortKey p0.1 = none := by
    rw [hk]
    exact snvSortKey_two_components ha hb
  have hg : (snvSortKey p0.1).map (fun sk => (p0.1, sk)) = none := by
    rw [hsk]
    rfl
  have hmapM : ((p0 :: rest).map Prod.fst).mapM
      (fun k => (snvSortKey k).map (fun sk => (k, sk))) = none := by
    rw [List.map_cons, List.mapM_cons, hg]
    rfl
  unfold print_data
  rw [if_neg (by decide), if_pos rfl, hmapM]
  rfl

theorem c7_snv_sort_crash_witness :
    print_data "snv_data" [("rs113488022:140453136", ["x"])] = none :=
  c7_snv_sort_crash _ (by simp) (by
    intro k hk
    simp only [List.map_cons, List.map_nil, List.mem_singleton] at hk
    subst hk
    exact ⟨"rs113488022", "140453136", rfl, by decide, by decide⟩)

/-! ### Claim C6: natural ordering of CNV and Fusion rows -/

/-- C6: in a CNV or Fusion bucket of distinct keys whose position
components exist, two keys that differ only in the numeric magnitude of
the position component are emitted in numeric order: the row keyed by
the smaller position value appears at a strictly earlier output index,
because natural comparison compares the digit runs by value. -/
theorem c6_natural_order (data : List (String × List String))
    (k1 k2 p n1 n2 : String) (r1 r2 : List String)
    (h1 : (k1, r1) ∈ data) (h2 : (k2, r2) ∈ data)
    (hnd : (data.map Prod.fst).Nodup)
    (hall : ∀ k ∈ data.map Prod.fst, (posSortKey k).isSome)
    (hk1 : k1 = p ++ ":" ++ n1) (hk2 : k2 = p ++ ":" ++ n2)
    (hp : ':' ∉ p.data)
    (hd1 : n1.data ≠ [] ∧ ∀ c ∈ n1.data, c.isDigit)
    (hd2 : n2.data ≠ [] ∧ ∀ c ∈ n2.data, c.isDigit)
    (hlt : digitsVal n1.data < digitsVal n2.data) :
    ∃ (lines : List String) (i j : Nat),
      print_data "cnv_data" data = some lines ∧ i < j ∧
      lines[i]? = some (String.intercalate "," r1) ∧
      lines[j]? = some (String.intercalate "," r2) := by
  have hn1c : ':' ∉ n1.data := fun hm => absurd (hd1.2 ':' hm) (by decide)
  have hn2c : ':' ∉ n2.data := fun hm => absurd (hd2.2 ':' hm) (by decide)
  have hsk1 : posSortKey k1 = some n1 := by rw [hk1]; exact posSortKey_key hp hn1c
  have hsk2 : posSortKey k2 = some n2 := by rw [hk2]; exact posSortKey_key hp hn2c
  have hcmp := natCompare_digit_lt hd1 hd2 hlt
  have hn12 : n1 ≠ n2 := by
    intro he
    rw [he] at hlt
    exact lt_irrefl _ hlt
  have hk12 : k1 ≠ k2 := by
    intro he
    rw [he, hsk2] at hsk1
    exact hn12 (Option.some.inj hsk1).symm
  have hallg : ∀ k ∈ data.map Prod.fst,
      ((posSortKey k).map (fun sk => (k, sk))).isSome := by
    intro k hk
    obtain ⟨sk, hskk⟩ := Option.isSome_iff_exists.mp (hall k hk)
    simp [hskk]
  obtain ⟨keyed, hkeyed, hklen, hkget⟩ := mapM_option_spec hallg
  have hmemk : ∀ (k sk : String), k ∈ data.map Prod.fst →
      posSortKey k = some sk → (k, sk) ∈ keyed := by
    intro k sk hk hsk
    obtain ⟨i, hilt, hig⟩ := List.mem_iff_getElem.mp hk
    have hgeti : (data.map Prod.fst)[i]? = some k := by
      rw [List.getElem?_eq_getElem hilt, hig]
    have hki : keyed[i]? = some (k, sk) := by
      rw [hkget i, hgeti]
      simp [hsk]
    exact List.getElem?_mem hki
  have hm1 : (k1, n1) ∈ keyed :=
    hmemk k1 n1 (List.mem_map.mpr ⟨(k1, r1), h1, rfl⟩) hsk1
  have hm2 : (k2, n2) ∈ keyed :=
    hmemk k2 n2 (List.mem_map.mpr ⟨(k2, r2), h2, rfl⟩) hsk2
  have hkeyfst : ∀ pr ∈ keyed, pr.1 ∈ data.map Prod.fst := by
    intro pr hpr
    obtain ⟨i, hilt, hig⟩ := List.mem_iff_getElem.mp hpr
    have hki : keyed[i]? = some pr := by rw [List.getElem?_eq_getElem hilt, hig]
    rw [hkget i] at hki
    cases h4 : (data.map Prod.fst)[i]? with
    | none => rw [h4] at hki; cases hki
    | some k =>
      rw [h4] at hki
      simp only [Option.some_bind] at hki
      have hkmem : k ∈ data.map Prod.fst := List.getElem?_mem h4
      cases h5 : posSortKey k with
      | none => rw [h5] at hki; cases hki
      | some sk =>
        rw [h5] at hki
        simp only [Option.map_some'] at hki
        have hkp : (k, sk) = pr := Option.some.inj hki
        rw [← hkp]
        exact hkmem
  haveI instTot : IsTotal (String × String)
      (fun a b => natLe a.2 b.2 = true) := by
    constructor
    intro x y
    by_cases hxy : natLe x.2 y.2 = true
    · exact Or.inl hxy
    · exact Or.inr (natLe_total (Bool.eq_false_iff.mpr hxy))
  haveI instTrans : IsTrans (String × String)
      (fun a b => natLe a.2 b.2 = true) := ⟨fun x y z => natLe_trans⟩
  have hperm := List.perm_insertionSort
    (fun (a b : String × String) => natLe a.2 b.2 = true) keyed
  have hsorted := List.sorted_insertionSort
    (fun (a b : String × String) => natLe a.2 b.2 = true) keyed
  have hms1 : (k1, n1) ∈ List.insertionSort
      (fun a b => natLe a.2 b.2 = true) keyed := hperm.mem_iff.mpr hm1
  have hms2 : (k2, n2) ∈ List.insertionSort
      (fun a b => natLe a.2 b.2 = true) keyed := hperm.mem_iff.mpr hm2
  obtain ⟨i, hilt, hig⟩ := List.mem_iff_getElem.mp hms1
  obtain ⟨j, hjlt, hjg⟩ := List.mem_iff_getElem.mp hms2
  have hpairne : ((k1, n1) : String × String) ≠ (k2, n2) :=
    fun hpe => hk12 (congrArg Prod.fst hpe)
  have hijne : i ≠ j := by
    intro he
    subst he
    rw [hig] at hjg
    exact hpairne hjg
  have hij : i < j := by
    rcases lt_or_gt_of_ne hijne with h | h
    · exact h
    · exfalso
      have hpw := List.pairwise_iff_getElem.mp hsorted j i hjlt hilt h
      rw [hig, hjg] at hpw
      rw [hcmp.2] at hpw
      cases hpw
  have hallf : ∀ pr ∈ List.insertionSort
      (fun (a b : String × String) => natLe a.2 b.2 = true) keyed,
      ((lookupD data pr.1).map
        (fun row => String.intercalate "," row)).isSome := by
    intro pr hpr
    have hfst : pr.1 ∈ data.map Prod.fst :=
      hkeyfst pr (hperm.mem_iff.mp hpr)
    obtain ⟨row, hrow⟩ := Option.isSome_iff_exists.mp (lookupD_isSome hfst)
    simp [hrow]
  obtain ⟨lines, hlines, hlinlen, hlget⟩ := mapM_option_spec hallf
  refine ⟨lines, i, j, ?_, hij, ?_, ?_⟩
  · unfold print_data
    rw [if_neg (by decide), if_neg (by decide), hkeyed]
    exact hlines
  · rw [hlget i, List.getElem?_eq_getElem hilt, hig]
    simp only [Option.some_bind]
    rw [lookupD_eq h1 hnd]
    rfl
  · rw [hlget j, List.getElem?_eq_getElem hjlt, hjg]
    simp only [Option.some_bind]
    rw [lookupD_eq h2 hnd]
    rfl

theorem c6_natural_order_witness :
    ∃ (lines : List String) (i j : Nat),
      print_data "cnv_data"
        [("chr2:10", ["d", "ten"]), ("chr2:9", ["d", "nine"])] = some lines ∧
      i < j ∧
      lines[i]? = some (String.intercalate "," ["d", "nine"]) ∧
      lines[j]? = some (String.intercalate "," ["d", "ten"]) :=
  c6_natural_order [("chr2:10", ["d", "ten"]), ("chr2:9", ["d", "nine"])]
    "chr2:9" "chr2:10" "chr2" "9" "10" ["d", "nine"] ["d", "ten"]
    (by decide) (by decide) (by decide) (by decide)
    rfl rfl (by decide) ⟨by decide, by decide⟩ ⟨by decide, by decide⟩
    (by decide)

/-! ### Dict lemmas for the batch map -/

theorem find?_map_replace_self {v : Type} (k : String) (x : v) :
    ∀ (m : List (String × v)), (m.any fun p => p.1 == k) = true →
      (m.map (fun p => if p.1 == k then (k, x) else p)).find?
        (fun p => p.1 == k) = some (k, x) := by
  intro m
  induction m with
  | nil => intro h; cases h
  | cons q t ih =>
    intro h
    by_cases hq : (q.1 == k) = true
    · simp only [List.map_cons, if_pos hq, List.find?]
      simp
    · have ht : (t.any fun p => p.1 == k) = true := by
        rcases List.any_eq_true.mp h with ⟨p, hp, hpk⟩
        rcases List.mem_cons.mp hp with rfl | hpt
        · exact absurd hpk hq
        · exact List.any_eq_true.mpr ⟨p, hpt, hpk⟩
      simp only [List.map_cons, if_neg hq, List.find?]
      rw [Bool.eq_false_iff.mpr hq]
      exact ih ht

theorem find?_map_replace_other {v : Type} (k k2 : String) (x : v)
    (hne : k2 ≠ k) :
    ∀ (m : List (String × v)),
      (m.map (fun p => if p.1 == k then (k, x) else p)).find?
        (fun p => p.1 == k2) = m.find? (fun p => p.1 == k2) := by
  intro m
  induction m with
  | nil => rfl
  | cons q t ih =>
    by_cases hq : (q.1 == k) = true
    · have hq2 : (q.1 == k2) = false := by
        rw [beq_eq_false_iff_ne]
        intro he
        exact hne (he.symm.trans (eq_of_beq hq))
      have hk2 : (k == k2) = false := by
        rw [beq_eq_false_iff_ne]
        intro he
        exact hne he.symm
      simp only [List.map_cons, if_pos hq, List.find?, hk2, hq2]
      exact ih
    · simp only [List.map_cons, if_neg hq, List.find?]
      cases hq2 : (q.1 == k2) with
      | true => rfl
      | false => exact ih

theorem lookupD_dictInsert {v : Type} (m : List (String × v)) (k k2 : String)
    (x : v) :
    lookupD (dictInsert m k x) k2 =
      if k2 = k then some x else lookupD m k2 := by
  unfold dictInsert lookupD
  by_cases hc : (m.any fun p => p.1 == k) = true
  · rw [if_pos hc]
    by_cases hk : k2 = k
    · subst hk
      rw [if_pos rfl, find?_map_replace_self k2 x m hc]
      rfl
    · rw [if_neg hk, find?_map_replace_other k k2 x hk m]
  · rw [if_neg hc]
    rw [List.find?_append]
    by_cases hk : k2 = k
    · subst hk
      have hnone : m.find? (fun p => p.1 == k2) = none := by
        rw [List.find?_eq_none]
        intro p hp hpk
        exact hc (List.any_eq_true.mpr ⟨p, hp, hpk⟩)
      rw [if_pos rfl, hnone]
      simp [List.find?]
    · cases hf : m.find? (fun p => p.1 == k2) with
      | some p => simp [if_neg hk]
      | none =>
        have hk2 : (k == k2) = false := by
          rw [beq_eq_false_iff_ne]
          intro he
          exact hk he.symm
        simp [if_neg hk, List.find?, hk2]

theorem keys_dictInsert {v : Type} (m : List (String × v)) (k : String)
    (x : v) :
    (dictInsert m k x).map Prod.fst =
      if k ∈ m.map Prod.fst then m.map Prod.fst
      else m.map Prod.fst ++ [k] := by
  unfold dictInsert
  by_cases hc : (m.any fun p => p.1 == k) = true
  · have hmem : k ∈ m.map Prod.fst := by
      rcases List.any_eq_true.mp hc with ⟨p, hp, hpk⟩
      exact List.mem_map.mpr ⟨p, hp, eq_of_beq hpk⟩
    rw [if_pos hc, if_pos hmem, List.map_map]
    apply List.map_congr_left
    intro p hp
    by_cases hpk : (p.1 == k) = true
    · have hp2 : p.1 = k := eq_of_beq hpk
      simp [hp2]
    · have hp2 : p.1 ≠ k := beq_eq_false_iff_ne.mp (Bool.eq_false_iff.mpr hpk)
      simp [hp2]
  · have hmem : k ∉ m.map Prod.fst := by
      intro hk
      rcases List.mem_map.mp hk with ⟨p, hp, hpk⟩
      exact hc (List.any_eq_true.mpr ⟨p, hp, beq_iff_eq.mpr hpk⟩)
    rw [if_neg hc, if_neg hmem, List.map_append]
    rfl

theorem nodup_dictInsert {v : Type} {m : List (String × v)} (k : String)
    (x : v) (h : (m.map Prod.fst).Nodup) :
    ((dictInsert m k x).map Prod.fst).Nodup := by
  rw [keys_dictInsert]
  by_cases hk : k ∈ m.map Prod.fst
  · rw [if_pos hk]
    exact h
  · rw [if_neg hk]
    rw [List.nodup_append]
    refine ⟨h, List.nodup_singleton k, ?_⟩
    intro a ha hb
    rw [List.mem_singleton] at hb
    exact hk (hb ▸ ha)

theorem mem_keys_dictInsert {v : Type} {m : List (String × v)} {k k2 : String}
    {x : v} :
    k2 ∈ (dictInsert m k x).map Prod.fst ↔
      k2 = k ∨ k2 ∈ m.map Prod.fst := by
  rw [keys_dictInsert]
  by_cases hk : k ∈ m.map Prod.fst
  · rw [if_pos hk]
    constructor
    · exact Or.inr
    · rintro (rfl | h)
      · exact hk
      · exact h
  · rw [if_neg hk]
    rw [List.mem_append, List.mem_singleton]
    tauto

/-! ### The batch fold -/

theorem build_fold_none_iff {ext : String → String}
    {loc : String → String → String} {quiet : Bool} :
    ∀ (l : List String) (m0 : List (String × Bundle)),
      (l.foldlM (fun m v =>
        (gen_moi_report ext loc quiet v).map (dictInsert m v)) m0 = none) ↔
      ∃ v ∈ l, gen_moi_report ext loc quiet v = none := by
  intro l
  induction l with
  | nil =>
    intro m0
    constructor
    · intro h; cases h
    · rintro ⟨v, hv, _⟩; cases hv
  | cons w ws ih =>
    intro m0
    rw [List.foldlM_cons]
    cases hg : gen_moi_report ext loc quiet w with
    | none =>
      simp only [hg, Option.map_none']
      constructor
      · intro _; exact ⟨w, List.mem_cons_self w ws, hg⟩
      · intro _; rfl
    | some b =>
      simp only [hg, Option.map_some', obind_some]
      rw [ih (dictInsert m0 w b)]
      constructor
      · rintro ⟨v, hv, hgv⟩
        exact ⟨v, List.mem_cons_of_mem w hv, hgv⟩
      · rintro ⟨v, hv, hgv⟩
        rcases List.mem_cons.mp hv with rfl | hvs
        · rw [hg] at hgv; cases hgv
        · exact ⟨v, hvs, hgv⟩

theorem build_fold_spec {ext : String → String}
    {loc : String → String → String} {quiet : Bool} :
    ∀ (l : List String) (m0 m : List (String × Bundle)),
      (l.foldlM (fun m v =>
        (gen_moi_report ext loc quiet v).map (dictInsert m v)) m0 = some m) →
      (∀ k, lookupD m k =
        if k ∈ l then gen_moi_report ext loc quiet k else lookupD m0 k) ∧
      ((m0.map Prod.fst).Nodup → (m.map Prod.fst).Nodup) ∧
      (∀ k, k ∈ m.map Prod.fst ↔ k ∈ l ∨ k ∈ m0.map Prod.fst) := by
  intro l
  induction l with
  | nil =>
    intro m0 m h
    rw [List.foldlM_nil] at h
    cases h
    refine ⟨fun k => by simp, fun h => h, fun k => by simp⟩
  | cons w ws ih =>
    intro m0 m h
    rw [List.foldlM_cons] at h
    cases hg : gen_moi_report ext loc quiet w with
    | none => rw [hg] at h; cases h
    | some b =>
      rw [hg] at h
      simp only [Option.map_some', obind_some] at h
      obtain ⟨hlook, hnd, hmem⟩ := ih (dictInsert m0 w b) m h
      refine ⟨fun k => ?_, fun h0 => hnd (nodup_dictInsert w b h0), fun k => ?_⟩
      · rw [hlook k]
        by_cases hk : k ∈ ws
        · rw [if_pos hk, if_pos (List.mem_cons_of_mem w hk)]
        · rw [if_neg hk, lookupD_dictInsert]
          by_cases hkw : k = w
          · subst hkw
            rw [if_pos rfl, if_pos (List.mem_cons_self k ws), hg]
          · rw [if_neg hkw,
              if_neg (fun hc => by
                rcases List.mem_cons.mp hc with h | h
                · exact hkw h
                · exact hk h)]
      · rw [hmem k, mem_keys_dictInsert]
        constructor
        · rintro (h | hkw | h)
          · exact Or.inl (List.mem_cons_of_mem w h)
          · exact Or.inl (hkw ▸ List.mem_cons_self w ws)
          · exact Or.inr h
        · rintro (h | h)
          · rcases List.mem_cons.mp h with rfl | h
            · exact Or.inr (Or.inl rfl)
            · exact Or.inl h
          · exact Or.inr (Or.inr h)

theorem build_moi_none_iff {ext : String → String}
    {loc : String → String → String} {quiet : Bool} {l : List String} :
    build_moi ext loc quiet l = none ↔
      ∃ v ∈ l, gen_moi_report ext loc quiet v = none :=
  build_fold_none_iff l []

theorem build_moi_spec {ext : String → String}
    {loc : String → String → String} {quiet : Bool} {l : List String}
    {m : List (String × Bundle)} (h : build_moi ext loc quiet l = some m) :
    (∀ k, lookupD m k =
      if k ∈ l then gen_moi_report ext loc quiet k else none) ∧
    (m.map Prod.fst).Nodup ∧
    (∀ k, k ∈ m.map Prod.fst ↔ k ∈ l) := by
  obtain ⟨hlook, hnd, hmem⟩ := build_fold_spec l [] m h
  refine ⟨fun k => ?_, hnd (by simp), fun k => ?_⟩
  · rw [hlook k]
    by_cases hk : k ∈ l
    · rw [if_pos hk, if_pos hk]
    · rw [if_neg hk, if_neg hk]
      rfl
  · rw [hmem k]
    simp

theorem sortStr_eq_of_perm {l1 l2 : List String} (h : l1.Perm l2) :
    sortStr l1 = sortStr l2 := by
  unfold sortStr
  exact List.eq_of_perm_of_sorted
    (((List.perm_insertionSort _ l1).trans h).trans
      (List.perm_insertionSort _ l2).symm)
    (List.sorted_insertionSort _ l1)
    (List.sorted_insertionSort _ l2)

theorem report_section_congr {m1 m2 : List (String × Bundle)}
    (hkeys : sortStr (m1.map Prod.fst) = sortStr (m2.map Prod.fst))
    (hlook : ∀ k, lookupD m1 k = lookupD m2 k) :
    report_section m1 = report_section m2 := by
  unfold report_section
  rw [hkeys]
  have hfun : (fun s => (lookupD m1 s).bind sample_lines) =
      (fun s => (lookupD m2 s).bind sample_lines) :=
    funext fun s => by rw [hlook s]
  rw [hfun]

theorem build_moi_perm_report {ext : String → String}
    {loc : String → String → String} {quiet : Bool} {l1 l2 : List String}
    (h : l1.Perm l2) :
    (build_moi ext loc quiet l1).bind report_section =
      (build_moi ext loc quiet l2).bind report_section ∧
    (build_moi ext loc quiet l1).isSome =
      (build_moi ext loc quiet l2).isSome := by
  cases hb1 : build_moi ext loc quiet l1 with
  | none =>
    have hb2 : build_moi ext loc quiet l2 = none := by
      rw [build_moi_none_iff] at hb1 ⊢
      rcases hb1 with ⟨v, hv, hg⟩
      exact ⟨v, h.mem_iff.mp hv, hg⟩
    rw [hb2]
    exact ⟨rfl, rfl⟩
  | some m1 =>
    cases hb2 : build_moi ext loc quiet l2 with
    | none =>
      exfalso
      rw [build_moi_none_iff] at hb2
      rcases hb2 with ⟨v, hv, hg⟩
      have hcontra : build_moi ext loc quiet l1 = none :=
        build_moi_none_iff.mpr ⟨v, h.mem_iff.mpr hv, hg⟩
      rw [hcontra] at hb1
      cases hb1
    | some m2 =>
      obtain ⟨hlook1, hnd1, hmem1⟩ := build_moi_spec hb1
      obtain ⟨hlook2, hnd2, hmem2⟩ := build_moi_spec hb2
      have hlookeq : ∀ k, lookupD m1 k = lookupD m2 k := by
        intro k
        rw [hlook1 k, hlook2 k]
        by_cases hk : k ∈ l1
        · rw [if_pos hk, if_pos (h.mem_iff.mp hk)]
        · rw [if_neg hk, if_neg (fun hcc => hk (h.mem_iff.mpr hcc))]
      have hkeysperm : (m1.map Prod.fst).Perm (m2.map Prod.fst) :=
        (List.perm_ext_iff_of_nodup hnd1 hnd2).mpr (fun a => by
          rw [hmem1 a, hmem2 a, h.mem_iff])
      have hrep : report_section m1 = report_section m2 :=
        report_section_congr (sortStr_eq_of_perm hkeysperm) hlookeq
      simp [hrep]

/-! ### Claim C9: concurrency and input order do not change the output -/

/-- C9: a pool run with N of at least 2 workers, whose per-sample
results arrive in an arbitrary completion order, produces exactly the
same output as the sequential run, and reordering the input file list
does not change the output either: this holds both for what the program
actually writes (main_output, the banner before the exit), and for the
full collated report of the assembler code of lines 348-360
(collated_report) - the merged sample map is order-independent and the
assembler re-sorts samples, so completion order never leaks. -/
theorem c9_concurrency_equiv (files files2 completion : List String)
    (N : Nat) (ext : String → String) (loc : String → String → String)
    (quiet : Bool) (cu cl cn : Option Int) (reads : Int) (pedmatch : Bool)
    (hN : 2 ≤ N) (hc : completion.Perm files) (h2 : files2.Perm files) :
    main_output files completion N ext loc cu cl cn reads pedmatch quiet =
      main_output files completion 1 ext loc cu cl cn reads pedmatch quiet ∧
    collated_report files completion N ext loc quiet =
      collated_report files completion 1 ext loc quiet ∧
    main_output files2 completion 1 ext loc cu cl cn reads pedmatch quiet =
      main_output files completion 1 ext loc cu cl cn reads pedmatch quiet ∧
    collated_report files2 completion 1 ext loc quiet =
      collated_report files completion 1 ext loc quiet := by
  have hprocN : proc_vcfs files completion N ext loc quiet =
      build_moi ext loc quiet completion := by
    unfold proc_vcfs
    rw [if_neg (by omega)]
  have hproc1 : ∀ fs, proc_vcfs fs completion 1 ext loc quiet =
      build_moi ext loc quiet fs := by
    intro fs
    unfold proc_vcfs
    rw [if_pos (by omega)]
  obtain ⟨hr1, hs1⟩ := build_moi_perm_report hc
  obtain ⟨hr2, hs2⟩ := build_moi_perm_report h2
  refine ⟨?_, ?_, ?_, ?_⟩
  · unfold main_output
    rw [hprocN, hproc1 files]
    cases hbc : build_moi ext loc quiet completion <;>
      cases hbf : build_moi ext loc quiet files <;>
      rw [hbc, hbf] at hs1 <;> first | rfl | (exfalso; simp at hs1)
  · unfold collated_report
    rw [hprocN, hproc1 files]
    exact hr1
  · unfold main_output
    rw [hproc1 files2, hproc1 files]
    cases hbc : build_moi ext loc quiet files2 <;>
      cases hbf : build_moi ext loc quiet files <;>
      rw [hbc, hbf] at hs2 <;> first | rfl | (exfalso; simp at hs2)
  · unfold collated_report
    rw [hproc1 files2, hproc1 files]
    exact hr2

theorem c9_concurrency_equiv_witness :
    (2 ≤ 2) ∧
    (main_output ["b_DNA_x.vcf", "a_DNA_y.vcf"]
        ["a_DNA_y.vcf", "b_DNA_x.vcf"] 2 (fun _ => "") (fun _ _ => "")
        none none (some 7) 1000 false true =
      main_output ["b_DNA_x.vcf", "a_DNA_y.vcf"]
        ["a_DNA_y.vcf", "b_DNA_x.vcf"] 1 (fun _ => "") (fun _ _ => "")
        none none (some 7) 1000 false true ∧
     collated_report ["b_DNA_x.vcf", "a_DNA_y.vcf"]
        ["a_DNA_y.vcf", "b_DNA_x.vcf"] 2 (fun _ => "") (fun _ _ => "") true =
      collated_report ["b_DNA_x.vcf", "a_DNA_y.vcf"]
        ["a_DNA_y.vcf", "b_DNA_x.vcf"] 1 (fun _ => "") (fun _ _ => "") true ∧
     main_output ["a_DNA_y.vcf", "b_DNA_x.vcf"]
        ["a_DNA_y.vcf", "b_DNA_x.vcf"] 1 (fun _ => "") (fun _ _ => "")
        none none (some 7) 1000 false true =
      main_output ["b_DNA_x.vcf", "a_DNA_y.vcf"]
        ["a_DNA_y.vcf", "b_DNA_x.vcf"] 1 (fun _ => "") (fun _ _ => "")
        none none (some 7) 1000 false true ∧
     collated_report ["a_DNA_y.vcf", "b_DNA_x.vcf"]
        ["a_DNA_y.vcf", "b_DNA_x.vcf"] 1 (fun _ => "") (fun _ _ => "") true =
      collated_report ["b_DNA_x.vcf", "a_DNA_y.vcf"]
        ["a_DNA_y.vcf", "b_DNA_x.vcf"] 1 (fun _ => "") (fun _ _ => "") true) :=
  ⟨by decide,
   c9_concurrency_equiv ["b_DNA_x.vcf", "a_DNA_y.vcf"]
     ["a_DNA_y.vcf", "b_DNA_x.vcf"] ["a_DNA_y.vcf", "b_DNA_x.vcf"] 2
     (fun _ => "") (fun _ _ => "") true none none (some 7) 1000 false
     (by decide) (List.Perm.swap "b_DNA_x.vcf" "a_DNA_y.vcf" [])
     (List.Perm.swap "b_DNA_x.vcf" "a_DNA_y.vcf" [])⟩
